import Mathlib

/-!
Verification of `yt_dl` (src/yt_dl/downloader.py) against its specification.

The Python module is shallowly embedded: pure string manipulation becomes
Lean functions on `String` / `List Char`; the external collaborators
(the metadata/stream provider and the transcoder) are modelled as explicit
inputs; the filesystem is a list of existing paths threaded through the
stateful operations; Python exceptions become `Except String`.
-/

namespace YtDl

/-! ## Definitions: the embedded program and its environments -/

/-- The characters the source treats as invalid in filenames:
`invalid_chars = '<>:"/\\|?*'` (downloader.py line 215). -/
def invalid_chars : List Char := ['<', '>', ':', '"', '/', '\\', '|', '?', '*']

/-- Python `str.replace(char, '_')` for a single character `c`. -/
def replaceChar (c : Char) (s : List Char) : List Char :=
  s.map fun x => if x = c then '_' else x

/-- Python's default `str.strip()` whitespace test, restricted to the ASCII
whitespace characters (space, tab, newline, carriage return, vertical tab,
form feed). -/
def pyIsSpace (c : Char) : Bool :=
  c == ' ' || c == '\t' || c == '\n' || c == '\r' || c == '\x0b' || c == '\x0c'

/-- Python `str.strip()`: remove leading and trailing whitespace. -/
def pyStrip (s : List Char) : List Char :=
  ((s.dropWhile pyIsSpace).reverse.dropWhile pyIsSpace).reverse

/-- `_sanitize_filename` (downloader.py lines 205-218): successively
replace every invalid character by `_`, then strip surrounding whitespace. -/
def sanitizeCore (s : List Char) : List Char :=
  pyStrip (invalid_chars.foldl (fun acc c => replaceChar c acc) s)

/-- `_sanitize_filename` on `String`s. -/
def _sanitize_filename (s : String) : String :=
  ⟨sanitizeCore s.data⟩

/-- The per-character substitution the sanitizer performs. -/
def subst (x : Char) : Char :=
  if x ∈ invalid_chars then '_' else x

/-- A stream descriptor as produced by the external metadata provider
(spec §3): resolution and audio bitrate are provider-reported strings such
as `"720p"` and `"128kbps"`, possibly absent. -/
structure StreamDescriptor where
  itag : Nat
  resolution : Option String
  file_extension : String
  is_progressive : Bool
  is_adaptive : Bool
  only_video : Bool
  only_audio : Bool
  abr : Option String
deriving Repr, DecidableEq

def natOfDigits (cs : List Char) : Nat :=
  cs.foldl (fun n c => 10 * n + (c.toNat - 48)) 0

/-- Modelled from the spec: the numeric value the provider's `order_by`
extracts from a string attribute (the integer formed by its digits). -/
def attrKey (v : Option String) : Option Nat :=
  v.map fun r => natOfDigits (r.data.filter fun c => c.isDigit)

def rKey (s : StreamDescriptor) : Option Nat := attrKey s.resolution

def aKey (s : StreamDescriptor) : Option Nat := attrKey s.abr

/-- Modelled from the spec: the provider's `order_by(attr).desc()` query.
Streams lacking the attribute are dropped; the rest are sorted by the
numeric value of the attribute, highest first (spec §4.1: among matches
pick the highest). -/
def orderByDesc (key : StreamDescriptor → Option Nat)
    (ss : List StreamDescriptor) : List StreamDescriptor :=
  (List.insertionSort (fun a b => (key a).getD 0 ≤ (key b).getD 0)
    (ss.filter fun s => (key s).isSome)).reverse

/-- The filter of the first query of `_get_video_stream` (lines 48-52):
`progressive=True, file_extension='mp4', resolution=resolution`. -/
def progMatch (resolution : String) (s : StreamDescriptor) : Bool :=
  s.is_progressive && s.file_extension == "mp4"
    && s.resolution == some resolution

/-- The filter of the second query of `_get_video_stream` (lines 58-63):
`adaptive=True, only_video=True, file_extension='mp4',
resolution=resolution`. -/
def adapMatch (resolution : String) (s : StreamDescriptor) : Bool :=
  s.is_adaptive && s.only_video && s.file_extension == "mp4"
    && s.resolution == some resolution

/-- The filter of the tier-2 fallback of `download_mp4` (lines 118-120):
`progressive=True, file_extension='mp4'`. -/
def progMp4 (s : StreamDescriptor) : Bool :=
  s.is_progressive && s.file_extension == "mp4"

/-- The filter of `_get_audio_stream` (lines 82-85):
`only_audio=True, file_extension='mp4'`. -/
def audioMatch (s : StreamDescriptor) : Bool :=
  s.only_audio && s.file_extension == "mp4"

/-- `_get_video_stream` (downloader.py lines 35-69): first query progressive
mp4 streams at the exact requested resolution, ordered by resolution
descending, and return the first if any; otherwise query adaptive
video-only mp4 streams at that resolution and return the first, or `none`. -/
def _get_video_stream (streams : List StreamDescriptor)
    (resolution : String) : Option StreamDescriptor :=
  let q1 := orderByDesc rKey (streams.filter (progMatch resolution))
  match q1.head? with
  | some s => some s
  | none =>
    (orderByDesc rKey (streams.filter (adapMatch resolution))).head?

/-- `_get_audio_stream` (downloader.py lines 71-90): audio-only mp4 streams
ordered by bitrate descending, first one or `none`. -/
def _get_audio_stream (streams : List StreamDescriptor) :
    Option StreamDescriptor :=
  (orderByDesc aKey (streams.filter audioMatch)).head?

/-- Scalar video metadata plus the stream list, as exposed by the external
provider for one URL (spec §3, §6). -/
structure YouTubeMeta where
  title : String
  author : String
  length : Nat
  views : Nat
  publish_date : String
  description : Option String
  streams : List StreamDescriptor
deriving Repr, DecidableEq

/-- Filename stem resolution (downloader.py lines 110-111 and 167-168):
a caller-supplied stem is used as given; only a stem derived from the
video title passes through the sanitizer. -/
def resolveFilename (filename : Option String) (title : String) : String :=
  match filename with
  | some f => f
  | none => _sanitize_filename title

/-- Renaming a file: `os.rename(old, new)` removes the entry `old` and
creates `new`; the filesystem is the list of existing paths. -/
def rename (fs : List String) (old new : String) : List String :=
  new :: fs.erase old

/-- Python `s.endswith(t)`: the last `len(t)` characters of `s` equal `t`. -/
def pyEndsWith (s t : String) : Bool :=
  (s.data.reverse.take t.data.length).reverse == t.data

/-- The `.mp4`-extension normalization step of `download_mp4`
(downloader.py lines 134-138), acting on the path the external transfer
produced and on the filesystem. -/
def normalize_mp4 (fs : List String) (file_path : String) :
    String × List String :=
  if pyEndsWith file_path ".mp4" then (file_path, fs)
  else (file_path ++ ".mp4", rename fs file_path (file_path ++ ".mp4"))

/-- The outcome of the external collaborators for one `download_mp4` call:
the metadata fetch (`YouTube(url)` and attribute access), the provider's
byte transfer (returning the local path it wrote, keyed by the chosen
stream and filename stem), and the provider's own
`get_highest_resolution()` selection, treated as opaque (spec §4.1 tier 3). -/
structure VideoEnv where
  meta : Except String YouTubeMeta
  transferResult : StreamDescriptor → String → Except String String
  get_highest : List StreamDescriptor → Option StreamDescriptor

/-- The three-tier video stream selection of `download_mp4`
(downloader.py lines 114-123): `_get_video_stream`, then the highest
progressive mp4 stream, then the provider's `get_highest_resolution()`. -/
def fallback_video_stream
    (get_highest : List StreamDescriptor → Option StreamDescriptor)
    (streams : List StreamDescriptor) (resolution : String) :
    Option StreamDescriptor :=
  match _get_video_stream streams resolution with
  | some s => some s
  | none =>
    match (orderByDesc rKey (streams.filter progMp4)).head? with
    | some s => some s
    | none => get_highest streams

/-- `download_mp4` (downloader.py lines 92-148). Returns the final path and
the updated filesystem, or the wrapped failure message. Accessing
`.resolution` on a missing stream raises in the source and is caught by the
blanket handler; the message is abbreviated here. -/
def download_mp4 (env : VideoEnv) (fs : List String)
    (filename : Option String) (resolution : String) :
    Except String (String × List String) :=
  match env.meta with
  | .error e => .error ("Failed to download video: " ++ e)
  | .ok yt =>
    let stem := resolveFilename filename yt.title
    match fallback_video_stream env.get_highest yt.streams resolution with
    | none =>
      .error "Failed to download video: NoneType has no attribute resolution"
    | some vs =>
      match env.transferResult vs stem with
      | .error e => .error ("Failed to download video: " ++ e)
      | .ok file_path =>
        .ok (normalize_mp4 (file_path :: fs) file_path)

/-- The outcome of the external collaborators for one `download_mp3` call:
the metadata fetch, the path the OS gives the scoped temporary file, and
the outcomes of the external transfer and of the transcoding step
(`none` = success, `some e` = the step raised with message `e`). -/
structure AudioEnv where
  meta : Except String YouTubeMeta
  temp_path : String
  transfer_err : Option String
  transcode_err : Option String
  output_path : String

/-- `download_mp3` (downloader.py lines 150-203). The temporary file is
created on disk by `NamedTemporaryFile(delete=False)`; `os.unlink` runs
only after a successful conversion — there is no `finally` block, so the
handlers at lines 198-203 propagate the wrapped error with the temporary
file still present. Returns the result and the final filesystem. -/
def download_mp3 (env : AudioEnv) (fs : List String)
    (filename : Option String) :
    Except String String × List String :=
  match env.meta with
  | .error e => (.error ("Failed to download audio: " ++ e), fs)
  | .ok yt =>
    let stem := resolveFilename filename yt.title
    match _get_audio_stream yt.streams with
    | none =>
      (.error "Failed to download audio: No suitable audio stream found", fs)
    | some _ =>
      let fs1 := env.temp_path :: fs
      match env.transfer_err with
      | some e => (.error ("Failed to download audio: " ++ e), fs1)
      | none =>
        let out := env.output_path ++ "/" ++ stem ++ ".mp3"
        match env.transcode_err with
        | some e => (.error ("Failed to download audio: " ++ e), fs1)
        | none => (.ok out, (out :: fs1).erase env.temp_path)

/-- The `VideoInfo` record (spec §3). -/
structure VideoInfo where
  title : String
  author : String
  length : Nat
  views : Nat
  publish_date : String
  description : Option String
deriving Repr, DecidableEq

/-- `get_video_info` (downloader.py lines 220-242): build the info record;
any failure of the metadata fetch is caught and an empty record (`none`)
returned. The description is truncated to 200 characters plus `"..."` when
it is non-empty and longer than 200. -/
def get_video_info (meta : Except String YouTubeMeta) : Option VideoInfo :=
  match meta with
  | .error _ => none
  | .ok yt =>
    some { title := yt.title
           author := yt.author
           length := yt.length
           views := yt.views
           publish_date := yt.publish_date
           description :=
             match yt.description with
             | none => none
             | some d =>
               if d ≠ "" ∧ 200 < d.length then some (d.take 200 ++ "...")
               else some d }

def sProg720 : StreamDescriptor :=
  { itag := 22, resolution := some "720p", file_extension := "mp4",
    is_progressive := true, is_adaptive := false,
    only_video := false, only_audio := false, abr := none }

def sAdap720 : StreamDescriptor :=
  { itag := 136, resolution := some "720p", file_extension := "mp4",
    is_progressive := false, is_adaptive := true,
    only_video := true, only_audio := false, abr := none }

def sAudio96 : StreamDescriptor :=
  { itag := 139, resolution := none, file_extension := "mp4",
    is_progressive := false, is_adaptive := true,
    only_video := false, only_audio := true, abr := some "96kbps" }

def sAudio128 : StreamDescriptor :=
  { itag := 140, resolution := none, file_extension := "mp4",
    is_progressive := false, is_adaptive := true,
    only_video := false, only_audio := true, abr := some "128kbps" }

def sAudio160 : StreamDescriptor :=
  { itag := 141, resolution := none, file_extension := "mp4",
    is_progressive := false, is_adaptive := true,
    only_video := false, only_audio := true, abr := some "160kbps" }

def ytAudio : YouTubeMeta :=
  { title := "Song Title", author := "Artist", length := 180, views := 1000,
    publish_date := "2020-01-01", description := none,
    streams := [sAudio96, sAudio160, sAudio128] }

def ytVideo : YouTubeMeta :=
  { title := "Video Title", author := "Author", length := 60, views := 42,
    publish_date := "2021-06-01", description := some "d",
    streams := [sProg720, sAdap720] }

def ytNoAudio : YouTubeMeta :=
  { title := "No Audio", author := "Author", length := 60, views := 7,
    publish_date := "2021-06-01", description := none,
    streams := [sProg720] }

def envNoAudio : AudioEnv :=
  { meta := .ok ytNoAudio, temp_path := "/tmp/tmpabc.mp4",
    transfer_err := none, transcode_err := none,
    output_path := "./downloads" }

/-- The environment of a `download_mp3` call in which the external
transcoding step fails. -/
def leakEnv : AudioEnv :=
  { meta := .ok ytAudio, temp_path := "/tmp/tmpabc.mp4",
    transfer_err := none, transcode_err := some "transcode failed",
    output_path := "./downloads" }

def descLong : String := ⟨List.replicate 201 'a'⟩

def ytLong : YouTubeMeta :=
  { title := "T", author := "A", length := 1, views := 2,
    publish_date := "2022-01-01", description := some descLong,
    streams := [] }

def venvOk : VideoEnv :=
  { meta := .ok ytVideo,
    transferResult := fun _ f => .ok ("./downloads/" ++ f),
    get_highest := fun _ => none }

def envAudioOk : AudioEnv :=
  { meta := .ok ytAudio, temp_path := "/tmp/tmpabc.mp4",
    transfer_err := none, transcode_err := none,
    output_path := "./downloads" }

/-! ## Lemmas and claim theorems -/

lemma replaceChar_eq_map (c : Char) (s : List Char) :
    replaceChar c s = s.map fun x => if x = c then '_' else x := rfl

/-- Folding single-character replacements over a list of characters that does
not contain `_` is the simultaneous substitution. -/
lemma foldl_replaceChar (cs : List Char) (h : '_' ∉ cs) (s : List Char) :
    cs.foldl (fun acc c => replaceChar c acc) s
      = s.map fun x => if x ∈ cs then '_' else x := by
  induction cs generalizing s with
  | nil => simp
  | cons c cs ih =>
    have hu : '_' ∉ cs := fun hmem => h (List.mem_cons_of_mem _ hmem)
    rw [List.foldl_cons, ih hu, replaceChar_eq_map, List.map_map]
    refine List.map_congr_left fun x _ => ?_
    by_cases hxc : x = c
    · subst hxc
      simp [Function.comp, List.mem_cons]
    · by_cases hxs : x ∈ cs <;>
        simp [Function.comp, List.mem_cons, hxc, hxs]

lemma sanitizeCore_eq (s : List Char) :
    sanitizeCore s = pyStrip (s.map subst) := by
  unfold sanitizeCore subst
  rw [foldl_replaceChar _ (by decide)]

lemma dropWhile_idem (p : Char → Bool) (l : List Char) :
    (l.dropWhile p).dropWhile p = l.dropWhile p := by
  induction l with
  | nil => simp
  | cons a l ih =>
    by_cases h : p a <;> simp [List.dropWhile_cons, h, ih]

lemma dropWhile_append_singleton (p : Char → Bool) (l : List Char) (a : Char)
    (ha : p a = false) :
    (l ++ [a]).dropWhile p = l.dropWhile p ++ [a] := by
  induction l with
  | nil => simp [List.dropWhile_cons, ha]
  | cons b l ih =>
    by_cases h : p b <;> simp [List.dropWhile_cons, h, ih]

lemma length_dropWhile_le' (p : Char → Bool) (l : List Char) :
    (l.dropWhile p).length ≤ l.length := by
  induction l with
  | nil => simp
  | cons a l ih =>
    by_cases h : p a
    · simp only [List.dropWhile_cons, if_pos h, List.length_cons]
      omega
    · simp [List.dropWhile_cons, if_neg h]

lemma mem_of_mem_dropWhile (p : Char → Bool) (l : List Char) (x : Char)
    (h : x ∈ l.dropWhile p) : x ∈ l := by
  induction l with
  | nil => simp at h
  | cons a l ih =>
    by_cases hp : p a
    · simp only [List.dropWhile_cons, hp, if_true] at h
      exact List.mem_cons_of_mem _ (ih h)
    · simpa [List.dropWhile_cons, hp] using h

lemma mem_of_mem_pyStrip (l : List Char) (x : Char) (h : x ∈ pyStrip l) :
    x ∈ l := by
  unfold pyStrip at h
  rw [List.mem_reverse] at h
  have h1 := mem_of_mem_dropWhile _ _ _ h
  rw [List.mem_reverse] at h1
  exact mem_of_mem_dropWhile _ _ _ h1

/-- A list with no leading whitespace keeps that property after its trailing
whitespace is removed. -/
lemma dropWhile_trimRight (l : List Char)
    (h : l.dropWhile pyIsSpace = l) :
    ((l.reverse.dropWhile pyIsSpace).reverse).dropWhile pyIsSpace
      = (l.reverse.dropWhile pyIsSpace).reverse := by
  cases l with
  | nil => simp
  | cons a t =>
    have ha : pyIsSpace a = false := by
      by_contra hcontra
      have hpa : pyIsSpace a = true := by
        cases hb : pyIsSpace a
        · exact absurd hb hcontra
        · rfl
      rw [List.dropWhile_cons, if_pos hpa] at h
      have hlen := congrArg List.length h
      simp only [List.length_cons] at hlen
      have := length_dropWhile_le' pyIsSpace t
      omega
    rw [List.reverse_cons, dropWhile_append_singleton _ _ _ ha,
      List.reverse_append]
    simp [List.dropWhile_cons, ha]

/-- Stripping is idempotent. -/
lemma pyStrip_idem (l : List Char) : pyStrip (pyStrip l) = pyStrip l := by
  unfold pyStrip
  have h0 : (l.dropWhile pyIsSpace).dropWhile pyIsSpace
      = l.dropWhile pyIsSpace := dropWhile_idem _ _
  rw [dropWhile_trimRight _ h0, List.reverse_reverse, dropWhile_idem]

lemma subst_not_invalid (x : Char) : subst x ∉ invalid_chars := by
  unfold subst
  by_cases h : x ∈ invalid_chars
  · rw [if_pos h]; decide
  · rwa [if_neg h]

lemma subst_idem (x : Char) : subst (subst x) = subst x := by
  unfold subst
  by_cases h : x ∈ invalid_chars
  · rw [if_pos h]; decide
  · rw [if_neg h, if_neg h]

/-- C2, list level: the sanitizer output is the stripped substitution and
contains no invalid character. -/
lemma sanitizeCore_spec (s : List Char) :
    sanitizeCore s = pyStrip (s.map subst)
      ∧ ∀ c ∈ sanitizeCore s, c ∉ invalid_chars := by
  refine ⟨sanitizeCore_eq s, fun c hc => ?_⟩
  rw [sanitizeCore_eq] at hc
  have := mem_of_mem_pyStrip _ _ hc
  rcases List.mem_map.mp this with ⟨x, _, hx⟩
  exact hx ▸ subst_not_invalid x

/-- C3, list level. -/
lemma sanitizeCore_idem (s : List Char) :
    sanitizeCore (sanitizeCore s) = sanitizeCore s := by
  rw [sanitizeCore_eq s, sanitizeCore_eq]
  have hfix : (pyStrip (s.map subst)).map subst = pyStrip (s.map subst) := by
    have : ∀ a ∈ pyStrip (s.map subst), subst a = id a := by
      intro a ha
      rcases List.mem_map.mp (mem_of_mem_pyStrip _ _ ha) with ⟨x, _, hx⟩
      simpa [id] using hx ▸ subst_idem x
    rw [List.map_congr_left this, List.map_id]
  rw [hfix, pyStrip_idem]

/-- The head of a descending-ordered query is a maximal element of the
attribute-carrying streams. -/
lemma orderByDesc_head_max (key : StreamDescriptor → Option Nat)
    (ss : List StreamDescriptor) (m : StreamDescriptor)
    (h : (orderByDesc key ss).head? = some m) :
    m ∈ ss ∧ (key m).isSome = true
      ∧ ∀ x ∈ ss, (key x).isSome = true → (key x).getD 0 ≤ (key m).getD 0 := by
  classical
  set r : StreamDescriptor → StreamDescriptor → Prop :=
    fun a b => (key a).getD 0 ≤ (key b).getD 0 with hr
  haveI : IsTotal StreamDescriptor r := ⟨fun a b => Nat.le_total _ _⟩
  haveI : IsTrans StreamDescriptor r := ⟨fun _ _ _ => Nat.le_trans⟩
  set l' := ss.filter fun s => (key s).isSome with hl'
  have hperm := List.perm_insertionSort r l'
  have hsorted : List.Pairwise r (List.insertionSort r l') :=
    List.sorted_insertionSort r l'
  have hrev : List.Pairwise (fun a b => r b a)
      (List.insertionSort r l').reverse := by
    rw [List.pairwise_reverse]
    exact hsorted
  have hmem_rev : m ∈ (List.insertionSort r l').reverse := by
    unfold orderByDesc at h
    exact List.mem_of_mem_head? h
  have hm_l' : m ∈ l' := by
    rw [List.mem_reverse] at hmem_rev
    exact hperm.mem_iff.mp hmem_rev
  have hm_ss : m ∈ ss := List.mem_of_mem_filter hm_l'
  have hm_key : (key m).isSome = true := by
    have := List.of_mem_filter hm_l'
    simpa using this
  refine ⟨hm_ss, hm_key, fun x hx hkx => ?_⟩
  have hx_l' : x ∈ l' := by
    rw [hl', List.mem_filter]
    exact ⟨hx, by simpa using hkx⟩
  have hx_rev : x ∈ (List.insertionSort r l').reverse := by
    rw [List.mem_reverse]
    exact hperm.mem_iff.mpr hx_l'
  unfold orderByDesc at h
  rcases hcase : (List.insertionSort r l').reverse with _ | ⟨hd, tl⟩
  · rw [hcase] at h; simp at h
  · rw [hcase] at h
    simp only [List.head?_cons, Option.some.injEq] at h
    subst h
    rw [hcase] at hx_rev hrev
    rcases List.mem_cons.mp hx_rev with hx_eq | hx_tl
    · subst hx_eq; exact le_refl _
    · exact List.rel_of_pairwise_cons hrev hx_tl

/-- A descending-ordered query over streams that all carry the attribute is
empty exactly when no stream satisfies the filter. -/
lemma orderByDesc_eq_nil_iff (key : StreamDescriptor → Option Nat)
    (ss : List StreamDescriptor) :
    orderByDesc key ss = [] ↔ (ss.filter fun s => (key s).isSome) = [] := by
  unfold orderByDesc
  rw [List.reverse_eq_nil_iff]
  constructor
  · intro h
    have := List.perm_insertionSort
      (fun a b => (key a).getD 0 ≤ (key b).getD 0)
      (ss.filter fun s => (key s).isSome)
    rw [h] at this
    exact this.symm.eq_nil
  · intro h
    rw [h]
    rfl

lemma orderByDesc_nil (key : StreamDescriptor → Option Nat) :
    orderByDesc key [] = [] := rfl

lemma orderByDesc_head_some (key : StreamDescriptor → Option Nat)
    (ss : List StreamDescriptor) (x : StreamDescriptor)
    (hx : x ∈ ss) (hk : (key x).isSome = true) :
    ∃ m, (orderByDesc key ss).head? = some m := by
  rcases hcase : orderByDesc key ss with _ | ⟨hd, tl⟩
  · exfalso
    rw [orderByDesc_eq_nil_iff] at hcase
    have hmem : x ∈ ss.filter fun s => (key s).isSome :=
      List.mem_filter.mpr ⟨hx, hk⟩
    rw [hcase] at hmem
    simp at hmem
  · exact ⟨hd, rfl⟩

lemma rKey_isSome_of_res_eq (s : StreamDescriptor) (res : String)
    (h : s.resolution = some res) : (rKey s).isSome = true := by
  simp [rKey, attrKey, h]

lemma progMatch_resolution (res : String) (s : StreamDescriptor)
    (h : progMatch res s = true) : s.resolution = some res := by
  unfold progMatch at h
  simp only [Bool.and_eq_true, beq_iff_eq] at h
  exact h.2

lemma adapMatch_resolution (res : String) (s : StreamDescriptor)
    (h : adapMatch res s = true) : s.resolution = some res := by
  unfold adapMatch at h
  simp only [Bool.and_eq_true, beq_iff_eq] at h
  exact h.2

/-- C4: for every stream list and requested resolution, a progressive mp4
stream at the exact resolution is returned in preference to any adaptive
stream; with only adaptive video-only mp4 matches the adaptive one is
returned; with neither, `_get_video_stream` returns `none` (the caller's
fallback engages). -/
theorem C4_video_stream_priority (streams : List StreamDescriptor)
    (res : String) :
    ((∃ s ∈ streams, progMatch res s = true) →
      ∃ m, _get_video_stream streams res = some m ∧ progMatch res m = true)
    ∧ ((∀ s ∈ streams, progMatch res s = false) →
      (∃ s ∈ streams, adapMatch res s = true) →
      ∃ m, _get_video_stream streams res = some m ∧ adapMatch res m = true)
    ∧ ((∀ s ∈ streams, progMatch res s = false) →
      (∀ s ∈ streams, adapMatch res s = false) →
      _get_video_stream streams res = none) := by
  refine ⟨?_, ?_, ?_⟩
  · rintro ⟨s, hs, hps⟩
    have hk := rKey_isSome_of_res_eq s res (progMatch_resolution res s hps)
    have hsf : s ∈ streams.filter (progMatch res) :=
      List.mem_filter.mpr ⟨hs, hps⟩
    obtain ⟨m, hm⟩ := orderByDesc_head_some rKey _ s hsf hk
    refine ⟨m, ?_, ?_⟩
    · unfold _get_video_stream
      simp only [hm]
    · have hmem := (orderByDesc_head_max rKey _ m hm).1
      exact (List.mem_filter.mp hmem).2
  · rintro hnone ⟨s, hs, has⟩
    have hfil : streams.filter (progMatch res) = [] :=
      List.filter_eq_nil_iff.mpr fun a ha => by
        rw [hnone a ha]; simp
    have hk := rKey_isSome_of_res_eq s res (adapMatch_resolution res s has)
    have hsf : s ∈ streams.filter (adapMatch res) :=
      List.mem_filter.mpr ⟨hs, has⟩
    obtain ⟨m, hm⟩ := orderByDesc_head_some rKey _ s hsf hk
    refine ⟨m, ?_, ?_⟩
    · unfold _get_video_stream
      rw [hfil, orderByDesc_nil]
      simp only [List.head?_nil, hm]
    · have hmem := (orderByDesc_head_max rKey _ m hm).1
      exact (List.mem_filter.mp hmem).2
  · intro hp ha
    have hfp : streams.filter (progMatch res) = [] :=
      List.filter_eq_nil_iff.mpr fun a haa => by
        rw [hp a haa]; simp
    have hfa : streams.filter (adapMatch res) = [] :=
      List.filter_eq_nil_iff.mpr fun a haa => by
        rw [ha a haa]; simp
    unfold _get_video_stream
    rw [hfp, hfa, orderByDesc_nil]
    simp only [List.head?_nil]

/-- C5: when no stream matches the requested resolution, `download_mp4`
falls back to the highest-resolution progressive mp4 stream; only when no
progressive mp4 stream exists does it take the provider's own
highest-resolution selection. -/
theorem C5_video_fallback
    (gh : List StreamDescriptor → Option StreamDescriptor)
    (streams : List StreamDescriptor) (res : String)
    (hmiss : _get_video_stream streams res = none) :
    ((∃ s ∈ streams, progMp4 s = true ∧ (rKey s).isSome = true) →
      ∃ m, fallback_video_stream gh streams res = some m
        ∧ progMp4 m = true
        ∧ ∀ x ∈ streams, progMp4 x = true → (rKey x).isSome = true →
            (rKey x).getD 0 ≤ (rKey m).getD 0)
    ∧ ((∀ s ∈ streams, progMp4 s = false) →
      fallback_video_stream gh streams res = gh streams) := by
  constructor
  · rintro ⟨s, hs, hps, hk⟩
    have hsf : s ∈ streams.filter progMp4 := List.mem_filter.mpr ⟨hs, hps⟩
    obtain ⟨m, hm⟩ := orderByDesc_head_some rKey _ s hsf hk
    obtain ⟨hmem, _, hmax⟩ := orderByDesc_head_max rKey _ m hm
    refine ⟨m, ?_, (List.mem_filter.mp hmem).2, fun x hx hpx hkx => ?_⟩
    · unfold fallback_video_stream
      rw [hmiss]
      simp only [hm]
    · exact hmax x (List.mem_filter.mpr ⟨hx, hpx⟩) hkx
  · intro hnone
    have hfil : streams.filter progMp4 = [] :=
      List.filter_eq_nil_iff.mpr fun a ha => by
        rw [hnone a ha]; simp
    unfold fallback_video_stream
    rw [hmiss, hfil, orderByDesc_nil]
    simp only [List.head?_nil]

/-- C6: `_get_audio_stream` returns an audio-only mp4 stream of maximal
reported bitrate, and returns `none` when no audio-only mp4 stream
exists. -/
theorem C6_audio_selection (streams : List StreamDescriptor) :
    ((∃ s ∈ streams, audioMatch s = true ∧ (aKey s).isSome = true) →
      ∃ m, _get_audio_stream streams = some m
        ∧ audioMatch m = true
        ∧ ∀ x ∈ streams, audioMatch x = true → (aKey x).isSome = true →
            (aKey x).getD 0 ≤ (aKey m).getD 0)
    ∧ ((∀ s ∈ streams, audioMatch s = false) →
      _get_audio_stream streams = none) := by
  constructor
  · rintro ⟨s, hs, has, hk⟩
    have hsf : s ∈ streams.filter audioMatch := List.mem_filter.mpr ⟨hs, has⟩
    obtain ⟨m, hm⟩ := orderByDesc_head_some aKey _ s hsf hk
    obtain ⟨hmem, _, hmax⟩ := orderByDesc_head_max aKey _ m hm
    refine ⟨m, ?_, (List.mem_filter.mp hmem).2, fun x hx hax hkx => ?_⟩
    · unfold _get_audio_stream
      exact hm
    · exact hmax x (List.mem_filter.mpr ⟨hx, hax⟩) hkx
  · intro hnone
    have hfil : streams.filter audioMatch = [] :=
      List.filter_eq_nil_iff.mpr fun a ha => by
        rw [hnone a ha]; simp
    unfold _get_audio_stream
    rw [hfil, orderByDesc_nil]
    rfl

/-- C2: the sanitizer replaces every occurrence of each of the nine invalid
characters by `_` and trims surrounding whitespace; its output contains
none of the nine characters, and it is a total function. -/
theorem C2_sanitize_total_and_clean (s : String) :
    _sanitize_filename s = ⟨pyStrip (s.data.map subst)⟩
      ∧ ∀ c ∈ (_sanitize_filename s).data, c ∉ invalid_chars := by
  obtain ⟨h1, h2⟩ := sanitizeCore_spec s.data
  exact ⟨String.ext h1, h2⟩

theorem C2_witness :
    _sanitize_filename " a<b>c " = ⟨pyStrip (" a<b>c ".data.map subst)⟩
      ∧ ('a' : Char) ∉ invalid_chars :=
  ⟨(C2_sanitize_total_and_clean " a<b>c ").1,
    (C2_sanitize_total_and_clean " a<b>c ").2 'a' (by decide)⟩

lemma _sanitize_filename_data (s : String) :
    (_sanitize_filename s).data = sanitizeCore s.data := rfl

lemma _sanitize_filename_def (s : String) :
    _sanitize_filename s = ⟨sanitizeCore s.data⟩ := rfl

/-- C3: the sanitizer is idempotent. -/
theorem C3_sanitize_idem (s : String) :
    _sanitize_filename (_sanitize_filename s) = _sanitize_filename s := by
  rw [_sanitize_filename_def (_sanitize_filename s), _sanitize_filename_data s,
    sanitizeCore_idem s.data, _sanitize_filename_def s]

theorem C4_witness :
    ∃ m, _get_video_stream [sProg720, sAdap720] "720p" = some m
      ∧ progMatch "720p" m = true :=
  (C4_video_stream_priority [sProg720, sAdap720] "720p").1
    ⟨sProg720, by decide, by decide⟩

theorem C5_witness :
    ∃ m, fallback_video_stream (fun _ => none) [sProg720] "1080p" = some m
      ∧ progMp4 m = true
      ∧ ∀ x ∈ [sProg720], progMp4 x = true → (rKey x).isSome = true →
          (rKey x).getD 0 ≤ (rKey m).getD 0 :=
  (C5_video_fallback (fun _ => none) [sProg720] "1080p" (by decide)).1
    ⟨sProg720, by decide, by decide, by decide⟩

theorem C6_witness :
    ∃ m, _get_audio_stream [sAudio96, sAudio160, sAudio128] = some m
      ∧ audioMatch m = true
      ∧ ∀ x ∈ [sAudio96, sAudio160, sAudio128], audioMatch x = true →
          (aKey x).isSome = true → (aKey x).getD 0 ≤ (aKey m).getD 0 :=
  (C6_audio_selection [sAudio96, sAudio160, sAudio128]).1
    ⟨sAudio160, by decide, by decide, by decide⟩

/-- C7: when audio stream selection comes back absent, `download_mp3` fails
with the fatal wrapped error carrying the cause message, attempts no
fallback, and leaves the filesystem untouched. -/
theorem C7_no_audio_stream_fatal (env : AudioEnv) (fs : List String)
    (filename : Option String) (yt : YouTubeMeta)
    (hmeta : env.meta = .ok yt)
    (hsel : _get_audio_stream yt.streams = none) :
    download_mp3 env fs filename
      = (.error "Failed to download audio: No suitable audio stream found",
          fs) := by
  unfold download_mp3
  rw [hmeta]
  simp only [hsel]

theorem C7_witness :
    download_mp3 envNoAudio [] (some "song")
      = (.error "Failed to download audio: No suitable audio stream found",
          []) :=
  C7_no_audio_stream_fatal envNoAudio [] (some "song") ytNoAudio rfl
    (by decide)

/-- C1: contrary to the claim, the temporary audio file is NOT deleted on
the transcoding-failure exit path: `os.unlink` (line 193) runs only after a
successful conversion and no `finally` guards it, so after a transcoding
failure the call returns the wrapped error with the temporary file still
on disk. -/
theorem C1_temp_file_leak :
    (download_mp3 leakEnv [] (some "song")).1
        = .error "Failed to download audio: transcode failed"
      ∧ "/tmp/tmpabc.mp4" ∈ (download_mp3 leakEnv [] (some "song")).2 := by
  constructor
  · rfl
  · decide

/-- C8: `get_video_info` returns the populated record on success, with the
description truncated to 200 characters plus an ellipsis when longer, and
returns the empty record on any metadata-fetch failure; as a total Lean
function it propagates no exception. -/
theorem C8_video_info (e : String) (yt : YouTubeMeta) :
    get_video_info (.error e) = none
    ∧ ∃ v, get_video_info (.ok yt) = some v
        ∧ v.title = yt.title ∧ v.author = yt.author
        ∧ v.length = yt.length ∧ v.views = yt.views
        ∧ v.publish_date = yt.publish_date
        ∧ (yt.description = none → v.description = none)
        ∧ (∀ d, yt.description = some d → d ≠ "" → 200 < d.length →
            v.description = some (d.take 200 ++ "..."))
        ∧ (∀ d, yt.description = some d → d.length ≤ 200 →
            v.description = some d) := by
  refine ⟨rfl, _, rfl, rfl, rfl, rfl, rfl, rfl, ?_, ?_, ?_⟩
  · intro h
    simp only [h]
  · intro d hd hne hlen
    simp only [hd]
    rw [if_pos ⟨hne, hlen⟩]
  · intro d hd hlen
    simp only [hd]
    rw [if_neg]
    rintro ⟨-, hgt⟩
    omega

set_option maxRecDepth 4000 in
theorem C8_witness :
    get_video_info (.error "boom") = none
    ∧ ∃ v, get_video_info (.ok ytLong) = some v
        ∧ v.description = some (descLong.take 200 ++ "...") := by
  obtain ⟨h1, v, hv, _, _, _, _, _, _, htr, _⟩ := C8_video_info "boom" ytLong
  exact ⟨h1, v, hv, htr descLong rfl (by decide) (by decide)⟩

lemma pyEndsWith_append_mp4 (s : String) :
    pyEndsWith (s ++ ".mp4") ".mp4" = true := by
  have hdata : (s ++ ".mp4").data = s.data ++ ['.', 'm', 'p', '4'] :=
    String.data_append s ".mp4"
  unfold pyEndsWith
  rw [hdata, List.reverse_append]
  rfl

lemma ne_append_mp4 (p : String) : p ≠ p ++ ".mp4" := by
  intro h
  have hlen := congrArg String.length h
  rw [String.length_append] at hlen
  have h4 : (".mp4" : String).length = 4 := rfl
  rw [h4] at hlen
  omega

/-- C9: on a successful transfer, `download_mp4` returns a path ending in
`.mp4`; when the transfer produced a path with a different extension the
file is renamed, not copied: the final path exists, the original path is
gone, and exactly one file was added to the filesystem. -/
theorem C9_mp4_extension (env : VideoEnv) (fs : List String)
    (filename : Option String) (res : String) (yt : YouTubeMeta)
    (vs : StreamDescriptor) (p : String)
    (hmeta : env.meta = .ok yt)
    (hsel : fallback_video_stream env.get_highest yt.streams res = some vs)
    (htr : env.transferResult vs (resolveFilename filename yt.title) = .ok p)
    (hfresh : p ∉ fs) :
    ∃ path fs2, download_mp4 env fs filename res = .ok (path, fs2)
      ∧ pyEndsWith path ".mp4" = true
      ∧ path ∈ fs2
      ∧ (pyEndsWith p ".mp4" = false → p ∉ fs2)
      ∧ fs2.length = fs.length + 1 := by
  have hrun : download_mp4 env fs filename res
      = .ok (normalize_mp4 (p :: fs) p) := by
    unfold download_mp4
    rw [hmeta]
    simp only [hsel, htr]
  rcases hend : pyEndsWith p ".mp4" with _ | _
  · have hnorm : normalize_mp4 (p :: fs) p
        = (p ++ ".mp4", rename (p :: fs) p (p ++ ".mp4")) := by
      unfold normalize_mp4
      rw [hend]
      rfl
    have hren : rename (p :: fs) p (p ++ ".mp4") = (p ++ ".mp4") :: fs := by
      unfold rename
      rw [List.erase_cons_head]
    refine ⟨p ++ ".mp4", (p ++ ".mp4") :: fs, ?_, pyEndsWith_append_mp4 p,
      List.mem_cons_self _ _, fun _ => ?_, by simp⟩
    · rw [hrun, hnorm, hren]
    · intro hmem
      rcases List.mem_cons.mp hmem with heq | hmem2
      · exact ne_append_mp4 p heq
      · exact hfresh hmem2
  · have hnorm : normalize_mp4 (p :: fs) p = (p, p :: fs) := by
      unfold normalize_mp4
      rw [hend]
      rfl
    refine ⟨p, p :: fs, ?_, hend, List.mem_cons_self _ _, ?_, by simp⟩
    · rw [hrun, hnorm]
    · intro hfalse
      simp at hfalse

theorem C9_witness :
    ∃ path fs2,
      download_mp4 venvOk [] (some "clip") "720p" = .ok (path, fs2)
        ∧ pyEndsWith path ".mp4" = true
        ∧ path ∈ fs2
        ∧ (pyEndsWith "./downloads/clip" ".mp4" = false →
            "./downloads/clip" ∉ fs2)
        ∧ fs2.length = 1 :=
  C9_mp4_extension venvOk [] (some "clip") "720p" ytVideo sProg720
    "./downloads/clip" rfl (by decide) rfl (by decide)

/-- C10: a caller-supplied filename stem is used verbatim — it does not pass
through the sanitizer, which is applied only to stems derived from the
video title — so the stem reaches the mp3 output path and the mp4 transfer
unchanged, invalid characters included. -/
theorem C10_caller_stem_verbatim
    (aenv : AudioEnv) (venv : VideoEnv) (fs : List String) (stem res : String)
    (yta ytv : YouTubeMeta) (vs : StreamDescriptor) (p : String)
    (ha : aenv.meta = .ok yta)
    (hsa : (_get_audio_stream yta.streams).isSome = true)
    (hte : aenv.transfer_err = none) (htc : aenv.transcode_err = none)
    (hv : venv.meta = .ok ytv)
    (hsv : fallback_video_stream venv.get_highest ytv.streams res = some vs)
    (htv : venv.transferResult vs stem = .ok p) :
    resolveFilename (some stem) yta.title = stem
    ∧ resolveFilename none yta.title = _sanitize_filename yta.title
    ∧ (download_mp3 aenv fs (some stem)).1
        = .ok (aenv.output_path ++ "/" ++ stem ++ ".mp3")
    ∧ download_mp4 venv fs (some stem) res
        = .ok (normalize_mp4 (p :: fs) p) := by
  obtain ⟨st, hst⟩ := Option.isSome_iff_exists.mp hsa
  refine ⟨rfl, rfl, ?_, ?_⟩
  · unfold download_mp3
    rw [ha]
    simp only [hst, hte, htc]
    rfl
  · unfold download_mp4
    rw [hv]
    simp only [resolveFilename, hsv, htv]

theorem C10_witness :
    (download_mp3 envAudioOk [] (some "a?b")).1 = .ok "./downloads/a?b.mp3"
      ∧ '?' ∈ ("./downloads/a?b.mp3" : String).data
      ∧ '?' ∈ invalid_chars := by
  obtain ⟨-, -, h3, -⟩ := C10_caller_stem_verbatim envAudioOk venvOk []
    "a?b" "720p" ytAudio ytVideo sProg720 "./downloads/a?b"
    rfl (by decide) rfl rfl rfl (by decide) rfl
  exact ⟨h3, by decide, by decide⟩

end YtDl
